import Mathlib

/-!
# Order demo (`src/app.js`): Observer, Strategy and Command wiring

A shallow embedding of `src/app.js`.  The page is a record holding the text
of the children of `#notifications` (oldest first) and the fee written into
`#feeDisplay`; every method that writes to the page is a function on that
record.  Numbers are exact: order ids and the order counter are integers,
distances and fees are rationals.
-/

namespace App

/-! ## Data model -/

/-- An order literal `{ id, items }`. -/
structure Order where
  id : Int
  items : List String
  deriving DecidableEq, Repr

/-- One recorded method invocation.  The log of invocations is ghost state:
it is written by the embedded methods at the point where the source method is
entered and is read by nothing. -/
inductive Call where
  | update (agentName : String) (order : Order)
  | getFee (distance : ℚ)
  | placeOrder (order : Order)
  | cancelOrder (order : Order)
  deriving DecidableEq, Repr

/-- The part of the document the script writes to: the `innerText` of the
`div`s appended to `#notifications`, the number interpolated into the text
`Delivery Fee: ₹${fee}` of `#feeDisplay` (`none` while the script has not
written it), and the ghost log of method invocations. -/
structure Page where
  notifications : List String
  feeDisplay : Option ℚ
  calls : List Call
  deriving DecidableEq, Repr

/-- Ghost: append an invocation to the log. -/
def Page.record (p : Page) (c : Call) : Page :=
  { p with calls := p.calls ++ [c] }

/-- Function `displayNotification(message)`: append a `div` with that text to
`#notifications`. -/
def displayNotification (message : String) (p : Page) : Page :=
  { p with notifications := p.notifications ++ [message] }

/-- The text a template literal produces for an integer number. -/
def numText (n : Int) : String := toString n

/-! ## Observer -/

/-- Class `DeliveryAgent`. -/
structure DeliveryAgent where
  name : String
  deriving DecidableEq, Repr

/-- Method `DeliveryAgent.update(order)`. -/
def DeliveryAgent.update (self : DeliveryAgent) (order : Order) (p : Page) : Page :=
  let msg := self.name ++ " notified: New order #" ++ numText order.id ++ " - "
    ++ String.intercalate ", " order.items
  displayNotification msg (p.record (Call.update self.name order))

/-- Class `Restaurant`; `agents` is the array of attached subscribers.  The
element type is a parameter because `attach` accepts any object. -/
structure Restaurant (α : Type) where
  agents : List α

/-- Constructor call `new Restaurant()`. -/
def Restaurant.new {α : Type} : Restaurant α := { agents := [] }

/-- Method `Restaurant.attach(agent)`: `this.agents.push(agent)`. -/
def Restaurant.attach {α : Type} (self : Restaurant α) (agent : α) : Restaurant α :=
  { agents := self.agents ++ [agent] }

/-- Method `Restaurant.notify(order)`: `this.agents.forEach(agent => agent.update(order))`.
The subscribers' `update` is the parameter `update`, acting on a state `σ`. -/
def Restaurant.notify {α σ : Type} (self : Restaurant α) (update : α → Order → σ → σ)
    (order : Order) (s : σ) : σ :=
  self.agents.foldl (fun acc agent => update agent order acc) s

/-- Attach the subscribers of a list one after the other. -/
def Restaurant.attachAll {α : Type} (self : Restaurant α) (subs : List α) : Restaurant α :=
  subs.foldl Restaurant.attach self

/-- A subscriber whose `update` only writes down who was called with what. -/
def recordUpdate {α : Type} (agent : α) (order : Order) (log : List (α × Order)) :
    List (α × Order) :=
  log ++ [(agent, order)]

/-! ## Strategy -/

/-- The classes `DeliveryStrategy` (the base class) and its three subclasses. -/
inductive DeliveryStrategy where
  | base
  | StandardDelivery
  | ExpressDelivery
  | FreeDelivery
  deriving DecidableEq, Repr

/-- Method `calculateFee(distance)` of each class. -/
def DeliveryStrategy.calculateFee : DeliveryStrategy → ℚ → ℚ
  | .base, _ => 0
  | .StandardDelivery, distance => distance * 5
  | .ExpressDelivery, distance => distance * 10
  | .FreeDelivery, _ => 0

/-- Class `DeliveryService`. -/
structure DeliveryService where
  strategy : DeliveryStrategy
  deriving DecidableEq, Repr

/-- Method `DeliveryService.getFee(distance)`. -/
def DeliveryService.getFee (self : DeliveryService) (distance : ℚ) : ℚ :=
  self.strategy.calculateFee distance

/-- The `if`/`else if`/`else` chain of the place handler that picks the
strategy from the value of `#deliveryType`. -/
def selectStrategy (deliveryType : String) : DeliveryStrategy :=
  if deliveryType = "standard" then DeliveryStrategy.StandardDelivery
  else if deliveryType = "express" then DeliveryStrategy.ExpressDelivery
  else DeliveryStrategy.FreeDelivery

/-! ## Command -/

/-- Class `OrderService` (no fields). -/
structure OrderService where
  deriving DecidableEq, Repr

/-- Method `OrderService.placeOrder(order)`. -/
def OrderService.placeOrder (_self : OrderService) (order : Order) (p : Page) : Page :=
  displayNotification ("Order #" ++ numText order.id ++ " placed.")
    (p.record (Call.placeOrder order))

/-- Method `OrderService.cancelOrder(order)`. -/
def OrderService.cancelOrder (_self : OrderService) (order : Order) (p : Page) : Page :=
  displayNotification ("Order #" ++ numText order.id ++ " canceled.")
    (p.record (Call.cancelOrder order))

/-- Class `PlaceOrderCommand`. -/
structure PlaceOrderCommand where
  service : OrderService
  order : Order
  deriving DecidableEq, Repr

/-- Method `PlaceOrderCommand.execute()`. -/
def PlaceOrderCommand.execute (self : PlaceOrderCommand) (p : Page) : Page :=
  self.service.placeOrder self.order p

/-- Method `PlaceOrderCommand.undo()`. -/
def PlaceOrderCommand.undo (self : PlaceOrderCommand) (p : Page) : Page :=
  self.service.cancelOrder self.order p

/-- Class `CancelOrderCommand`. -/
structure CancelOrderCommand where
  service : OrderService
  order : Order
  deriving DecidableEq, Repr

/-- Method `CancelOrderCommand.execute()`. -/
def CancelOrderCommand.execute (self : CancelOrderCommand) (p : Page) : Page :=
  self.service.cancelOrder self.order p

/-- Method `CancelOrderCommand.undo()`, inherited from `Command`: empty body. -/
def CancelOrderCommand.undo (_self : CancelOrderCommand) (p : Page) : Page := p

/-! ## Item parsing -/

/-- The code points `String.prototype.trim` strips: ECMAScript `WhiteSpace`
(TAB, VT, FF, SP, NBSP, ZWNBSP and the Unicode space separators) and
`LineTerminator` (LF, CR, LS, PS). -/
def isTrimChar (c : Char) : Bool :=
  let n := c.toNat
  n = 0x09 || n = 0x0A || n = 0x0B || n = 0x0C || n = 0x0D || n = 0x20 || n = 0xA0
    || n = 0x1680 || (0x2000 ≤ n && n ≤ 0x200A) || n = 0x2028 || n = 0x2029
    || n = 0x202F || n = 0x205F || n = 0x3000 || n = 0xFEFF

/-- Call `text.split(",")` on the characters of the text: the segments between
the commas, in order; a text with no comma is its own single segment. -/
def splitComma : List Char → List (List Char)
  | [] => [[]]
  | c :: cs =>
    if c = ',' then [] :: splitComma cs
    else
      match splitComma cs with
      | [] => [[c]]
      | seg :: rest => (c :: seg) :: rest

/-- Call `i.trim()` on the characters of a string. -/
def trimChars (cs : List Char) : List Char :=
  ((cs.dropWhile isTrimChar).reverse.dropWhile isTrimChar).reverse

/-- Expression `text.split(",").map(i => i.trim())`. -/
def parseItems (text : String) : List String :=
  (splitComma text.data).map (fun seg => String.mk (trimChars seg))

/-! ## UI logic -/

/-- The module-level bindings and the page. -/
structure State where
  orderId : Int
  restaurant : Restaurant DeliveryAgent
  orderService : OrderService
  page : Page

/-- The state once the script has run: `orderId = 1`, the two agents
attached, nothing written to the page. -/
def init : State :=
  { orderId := 1
    restaurant := (Restaurant.new.attach { name := "Agent A" }).attach { name := "Agent B" }
    orderService := {}
    page := { notifications := [], feeDisplay := none, calls := [] } }

/-- The order literal `{ id: orderId++, items }` the place handler builds. -/
def placedOrder (itemsText : String) (s : State) : Order :=
  { id := s.orderId, items := parseItems itemsText }

/-- The click handler of `#placeOrderBtn`; `itemsText` is the value of
`#orderItems` and `deliveryType` the value of `#deliveryType`. -/
def onPlaceOrder (itemsText deliveryType : String) (s : State) : State :=
  let order := placedOrder itemsText s
  let orderId := s.orderId + 1
  let p1 := s.restaurant.notify DeliveryAgent.update order s.page
  let distance : ℚ := 5
  let strategy := selectStrategy deliveryType
  let deliveryService : DeliveryService := { strategy := strategy }
  let fee := deliveryService.getFee distance
  let p2 := { p1.record (Call.getFee distance) with feeDisplay := some fee }
  let placeCommand : PlaceOrderCommand := { service := s.orderService, order := order }
  { s with orderId := orderId, page := placeCommand.execute p2 }

/-- The click handler of `#cancelOrderBtn`. -/
def onCancelOrder (s : State) : State :=
  let lastOrderId := s.orderId - 1
  if lastOrderId < 1 then s
  else
    let order : Order := { id := lastOrderId, items := [] }
    let cancelCommand : CancelOrderCommand := { service := s.orderService, order := order }
    { s with page := cancelCommand.execute s.page }

/-- A click on one of the two buttons, with the form values read by the
place handler. -/
inductive Trigger where
  | place (itemsText deliveryType : String)
  | cancel
  deriving DecidableEq, Repr

/-- Run the handler of one click. -/
def step (s : State) : Trigger → State
  | .place itemsText deliveryType => onPlaceOrder itemsText deliveryType s
  | .cancel => onCancelOrder s

/-- Run the handlers of a sequence of clicks, one after the other. -/
def run (s : State) (ts : List Trigger) : State :=
  ts.foldl step s

/-- Number of place clicks in a sequence. -/
def placeCount : List Trigger → Nat
  | [] => 0
  | .place _ _ :: ts => placeCount ts + 1
  | .cancel :: ts => placeCount ts

/-- The orders handed to `OrderService.placeOrder`, oldest first. -/
def placedOrders : List Call → List Order
  | [] => []
  | .placeOrder o :: cs => o :: placedOrders cs
  | _ :: cs => placedOrders cs

/-- The order an invocation was given, if it was given one. -/
def Call.order? : Call → Option Order
  | .update _ o => some o
  | .getFee _ => none
  | .placeOrder o => some o
  | .cancelOrder o => some o

/-! ## Fees (C1, C2) -/

/-- C1: for every distance `d` (so for every `d ≥ 0`), the standard fee is
`5 * d`, the express fee is `10 * d`, the free fee is `0`, and `getFee` of a
service returns the fee of the strategy the service was constructed with. -/
theorem calculateFee_values (d : ℚ) :
    DeliveryStrategy.StandardDelivery.calculateFee d = 5 * d
    ∧ DeliveryStrategy.ExpressDelivery.calculateFee d = 10 * d
    ∧ DeliveryStrategy.FreeDelivery.calculateFee d = 0
    ∧ ∀ strategy : DeliveryStrategy,
        (DeliveryService.mk strategy).getFee d = strategy.calculateFee d := by
  refine ⟨?_, ?_, rfl, fun _ => rfl⟩
  · simp only [DeliveryStrategy.calculateFee]; ring
  · simp only [DeliveryStrategy.calculateFee]; ring

/-- C2: the tier selection is total: "standard" selects the standard
strategy, "express" the express strategy, every other string the free
strategy; so every string other than those two gives fee 0 at every distance
and in the place handler; "express" at distance 5 gives 50 and "unknown" at
distance 5 gives 0, as do "free" and the empty string. -/
theorem selectStrategy_total :
    selectStrategy "standard" = DeliveryStrategy.StandardDelivery
    ∧ selectStrategy "express" = DeliveryStrategy.ExpressDelivery
    ∧ (∀ t : String, t ≠ "standard" → t ≠ "express" →
        selectStrategy t = DeliveryStrategy.FreeDelivery
        ∧ (∀ d : ℚ, (DeliveryService.mk (selectStrategy t)).getFee d = 0)
        ∧ ∀ (itemsText : String) (s : State),
            (onPlaceOrder itemsText t s).page.feeDisplay = some 0)
    ∧ (DeliveryService.mk (selectStrategy "express")).getFee 5 = 50
    ∧ (DeliveryService.mk (selectStrategy "unknown")).getFee 5 = 0
    ∧ (DeliveryService.mk (selectStrategy "free")).getFee 5 = 0
    ∧ (DeliveryService.mk (selectStrategy "")).getFee 5 = 0
    ∧ (∀ (itemsText : String) (s : State),
        (onPlaceOrder itemsText "express" s).page.feeDisplay = some 50) := by
  have hfree : ∀ t : String, t ≠ "standard" → t ≠ "express" →
      selectStrategy t = DeliveryStrategy.FreeDelivery := by
    intro t h1 h2
    simp [selectStrategy, h1, h2]
  have hexp : selectStrategy "express" = DeliveryStrategy.ExpressDelivery := by
    simp [selectStrategy]
  refine ⟨by simp [selectStrategy], hexp, ?_, ?_, ?_, ?_, ?_, ?_⟩
  · intro t h1 h2
    refine ⟨hfree t h1 h2, fun d => ?_, fun itemsText s => ?_⟩
    · simp [DeliveryService.getFee, hfree t h1 h2, DeliveryStrategy.calculateFee]
    · simp [onPlaceOrder, PlaceOrderCommand.execute, OrderService.placeOrder,
        displayNotification, Page.record, DeliveryService.getFee, hfree t h1 h2,
        DeliveryStrategy.calculateFee]
  · simp only [DeliveryService.getFee, hexp, DeliveryStrategy.calculateFee]; norm_num
  · simp [DeliveryService.getFee, hfree "unknown" (by decide) (by decide),
      DeliveryStrategy.calculateFee]
  · simp [DeliveryService.getFee, hfree "free" (by decide) (by decide),
      DeliveryStrategy.calculateFee]
  · simp [DeliveryService.getFee, hfree "" (by decide) (by decide),
      DeliveryStrategy.calculateFee]
  · intro itemsText s
    simp only [onPlaceOrder, PlaceOrderCommand.execute, OrderService.placeOrder,
      displayNotification, Page.record, DeliveryService.getFee, hexp,
      DeliveryStrategy.calculateFee]
    norm_num

/-- Witness for C2 at the tier "unknown". -/
theorem selectStrategy_total_witness :
    "unknown" ≠ "standard" ∧ "unknown" ≠ "express"
    ∧ selectStrategy "unknown" = DeliveryStrategy.FreeDelivery :=
  ⟨by decide, by decide, (selectStrategy_total.2.2.1 "unknown" (by decide) (by decide)).1⟩

/-! ## Notifier (C3) -/

theorem attachAll_agents {α : Type} (subs : List α) (r : Restaurant α) :
    (r.attachAll subs).agents = r.agents ++ subs := by
  induction subs generalizing r with
  | nil => simp [Restaurant.attachAll]
  | cons a subs ih =>
    have h := ih (r.attach a)
    simp only [Restaurant.attachAll, List.foldl_cons] at h ⊢
    rw [h]
    simp [Restaurant.attach]

theorem foldl_recordUpdate {α : Type} (order : Order) (subs : List α)
    (log : List (α × Order)) :
    subs.foldl (fun acc agent => recordUpdate agent order acc) log
      = log ++ subs.map (fun a => (a, order)) := by
  induction subs generalizing log with
  | nil => simp
  | cons a subs ih =>
    rw [List.foldl_cons, ih]
    simp [recordUpdate]

/-- C3: attach the subscribers `subs` (any length `n`, duplicates allowed), in
order, to a new `Restaurant`; then `notify(order)` calls `update` exactly
`n` times, once per attached entry and in attachment order, each time with
the order given to `notify`: the recorded calls are the attached entries,
each paired with that order.  With nothing attached no call is made. -/
theorem notify_calls_in_order {α : Type} (subs : List α) (order : Order) :
    ((Restaurant.new.attachAll subs).notify recordUpdate order [])
      = subs.map (fun a => (a, order))
    ∧ ((Restaurant.new.attachAll subs).notify recordUpdate order []).length = subs.length
    ∧ (Restaurant.new : Restaurant α).notify recordUpdate order [] = [] := by
  have h : ((Restaurant.new.attachAll subs).notify recordUpdate order [])
      = subs.map (fun a => (a, order)) := by
    simp [Restaurant.notify, attachAll_agents, Restaurant.new, foldl_recordUpdate]
  refine ⟨h, ?_, rfl⟩
  rw [h, List.length_map]

/-! ## Order dispatcher (C4) -/

/-- C4: `execute()` then `undo()` of a `PlaceOrderCommand` for an order with
id `k` appends exactly two notifications, "Order #k placed." and then
"Order #k canceled." (spelled out for `k = 3`), and `undo()` does to the page
what `execute()` of a `CancelOrderCommand` for the same order does. -/
theorem place_then_undo (service : OrderService) (order : Order) (items : List String)
    (p : Page) :
    ((PlaceOrderCommand.mk service order).undo
        ((PlaceOrderCommand.mk service order).execute p)).notifications
      = p.notifications
        ++ ["Order #" ++ numText order.id ++ " placed.",
            "Order #" ++ numText order.id ++ " canceled."]
    ∧ ((PlaceOrderCommand.mk service { id := 3, items := items }).undo
        ((PlaceOrderCommand.mk service { id := 3, items := items }).execute p)).notifications
      = p.notifications ++ ["Order #3 placed.", "Order #3 canceled."]
    ∧ (PlaceOrderCommand.mk service order).undo p
      = (CancelOrderCommand.mk service order).execute p := by
  refine ⟨?_, ?_, rfl⟩
  · simp [PlaceOrderCommand.undo, PlaceOrderCommand.execute, OrderService.placeOrder,
      OrderService.cancelOrder, displayNotification, Page.record]
  · simp [PlaceOrderCommand.undo, PlaceOrderCommand.execute, OrderService.placeOrder,
      OrderService.cancelOrder, displayNotification, Page.record]
    constructor <;> decide

/-! ## The two click handlers -/

theorem foldl_update_page (order : Order) (agents : List DeliveryAgent) (p : Page) :
    agents.foldl (fun acc agent => DeliveryAgent.update agent order acc) p
      = { notifications := p.notifications ++ agents.map (fun a =>
            a.name ++ " notified: New order #" ++ numText order.id ++ " - "
              ++ String.intercalate ", " order.items)
          feeDisplay := p.feeDisplay
          calls := p.calls ++ agents.map (fun a => Call.update a.name order) } := by
  induction agents generalizing p with
  | nil => simp
  | cons a agents ih =>
    rw [List.foldl_cons, ih]
    simp [DeliveryAgent.update, displayNotification, Page.record]

theorem notify_update_page (order : Order) (r : Restaurant DeliveryAgent) (p : Page) :
    r.notify DeliveryAgent.update order p
      = { notifications := p.notifications ++ r.agents.map (fun a =>
            a.name ++ " notified: New order #" ++ numText order.id ++ " - "
              ++ String.intercalate ", " order.items)
          feeDisplay := p.feeDisplay
          calls := p.calls ++ r.agents.map (fun a => Call.update a.name order) } :=
  foldl_update_page order r.agents p

theorem onPlaceOrder_orderId (itemsText deliveryType : String) (s : State) :
    (onPlaceOrder itemsText deliveryType s).orderId = s.orderId + 1 := rfl

theorem onPlaceOrder_restaurant (itemsText deliveryType : String) (s : State) :
    (onPlaceOrder itemsText deliveryType s).restaurant = s.restaurant := rfl

theorem onPlaceOrder_calls (itemsText deliveryType : String) (s : State) :
    (onPlaceOrder itemsText deliveryType s).page.calls
      = s.page.calls
        ++ s.restaurant.agents.map (fun a => Call.update a.name (placedOrder itemsText s))
        ++ [Call.getFee 5, Call.placeOrder (placedOrder itemsText s)] := by
  simp [onPlaceOrder, notify_update_page, PlaceOrderCommand.execute,
    OrderService.placeOrder, displayNotification, Page.record]

theorem onPlaceOrder_notifications (itemsText deliveryType : String) (s : State) :
    (onPlaceOrder itemsText deliveryType s).page.notifications
      = s.page.notifications
        ++ s.restaurant.agents.map (fun a =>
            a.name ++ " notified: New order #" ++ numText s.orderId ++ " - "
              ++ String.intercalate ", " (parseItems itemsText))
        ++ ["Order #" ++ numText s.orderId ++ " placed."] := by
  simp [onPlaceOrder, notify_update_page, PlaceOrderCommand.execute,
    OrderService.placeOrder, displayNotification, Page.record, placedOrder]

theorem onCancelOrder_orderId (s : State) : (onCancelOrder s).orderId = s.orderId := by
  by_cases h : s.orderId - 1 < 1 <;> simp [onCancelOrder, h]

theorem onCancelOrder_restaurant (s : State) :
    (onCancelOrder s).restaurant = s.restaurant := by
  by_cases h : s.orderId - 1 < 1 <;> simp [onCancelOrder, h]

theorem onCancelOrder_of_lt (s : State) (h : s.orderId - 1 < 1) : onCancelOrder s = s := by
  simp [onCancelOrder, h]

theorem onCancelOrder_of_ge (s : State) (h : 1 ≤ s.orderId - 1) :
    onCancelOrder s
      = { s with page :=
            { notifications := s.page.notifications
                ++ ["Order #" ++ numText (s.orderId - 1) ++ " canceled."]
              feeDisplay := s.page.feeDisplay
              calls := s.page.calls
                ++ [Call.cancelOrder { id := s.orderId - 1, items := [] }] } } := by
  have h' : ¬ (s.orderId - 1 < 1) := by omega
  simp [onCancelOrder, h', CancelOrderCommand.execute, OrderService.cancelOrder,
    displayNotification, Page.record]

theorem run_append (s : State) (ts us : List Trigger) :
    run s (ts ++ us) = run (run s ts) us := by
  simp [run, List.foldl_append]

theorem run_snoc (s : State) (ts : List Trigger) (t : Trigger) :
    run s (ts ++ [t]) = step (run s ts) t := by
  simp [run, List.foldl_append]

theorem placeCount_append (ts us : List Trigger) :
    placeCount (ts ++ us) = placeCount ts + placeCount us := by
  induction ts with
  | nil => simp [placeCount]
  | cons t ts ih =>
    cases t with
    | place a b => simp [placeCount, ih]; omega
    | cancel => simp [placeCount, ih]

theorem placedOrders_append (cs ds : List Call) :
    placedOrders (cs ++ ds) = placedOrders cs ++ placedOrders ds := by
  induction cs with
  | nil => simp [placedOrders]
  | cons c cs ih => cases c <;> simp [placedOrders, ih]

theorem placedOrders_update_map (agents : List DeliveryAgent) (order : Order) :
    placedOrders (agents.map (fun a => Call.update a.name order)) = [] := by
  induction agents with
  | nil => rfl
  | cons a agents ih => simpa [placedOrders] using ih

theorem run_orderId (ts : List Trigger) :
    (run init ts).orderId = (placeCount ts : Int) + 1 := by
  induction ts using List.reverseRecOn with
  | nil => rfl
  | append_singleton ts t ih =>
    rw [run_snoc, placeCount_append]
    cases t with
    | place a b =>
      simp only [step, onPlaceOrder_orderId, ih, placeCount]
      push_cast
      ring
    | cancel =>
      simp only [step, onCancelOrder_orderId, ih, placeCount]
      push_cast
      ring

theorem run_restaurant (ts : List Trigger) :
    (run init ts).restaurant = init.restaurant := by
  induction ts using List.reverseRecOn with
  | nil => rfl
  | append_singleton ts t ih =>
    rw [run_snoc]
    cases t with
    | place a b => simp only [step, onPlaceOrder_restaurant, ih]
    | cancel => simp only [step, onCancelOrder_restaurant, ih]

theorem onCancelOrder_placedOrders (s : State) :
    placedOrders (onCancelOrder s).page.calls = placedOrders s.page.calls := by
  by_cases h : s.orderId - 1 < 1
  · rw [onCancelOrder_of_lt s h]
  · rw [onCancelOrder_of_ge s (by omega)]
    simp [placedOrders_append, placedOrders]

theorem onPlaceOrder_placedOrders (itemsText deliveryType : String) (s : State) :
    placedOrders (onPlaceOrder itemsText deliveryType s).page.calls
      = placedOrders s.page.calls ++ [placedOrder itemsText s] := by
  rw [onPlaceOrder_calls]
  simp [placedOrders_append, placedOrders_update_map, placedOrders]

theorem run_placed_ids (ts : List Trigger) :
    (placedOrders (run init ts).page.calls).map Order.id
      = (List.range (placeCount ts)).map (fun i : Nat => (i : Int) + 1) := by
  induction ts using List.reverseRecOn with
  | nil => rfl
  | append_singleton ts t ih =>
    rw [run_snoc, placeCount_append]
    cases t with
    | place a b =>
      simp only [step, onPlaceOrder_placedOrders, List.map_append, ih, placeCount,
        List.range_succ, List.map_cons, List.map_nil, placedOrder, run_orderId, zero_add]
    | cancel =>
      simp only [step, onCancelOrder_placedOrders, ih, placeCount, add_zero]

theorem run_calls_ids (ts : List Trigger) :
    ∀ c ∈ (run init ts).page.calls, ∀ o : Order, c.order? = some o → 1 ≤ o.id := by
  induction ts using List.reverseRecOn with
  | nil => intro c hc; simp [run, init] at hc
  | append_singleton ts t ih =>
    have hid := run_orderId ts
    rw [run_snoc]
    intro c hc o ho
    cases t with
    | place a b =>
      simp only [step, onPlaceOrder_calls, List.mem_append, List.mem_map, List.mem_cons,
        List.mem_singleton, List.not_mem_nil, or_false] at hc
      rcases hc with (hc | ⟨ag, _, rfl⟩) | rfl | rfl
      · exact ih c hc o ho
      · simp only [Call.order?, Option.some.injEq] at ho
        subst ho
        simp only [placedOrder, hid]
        omega
      · simp [Call.order?] at ho
      · simp only [Call.order?, Option.some.injEq] at ho
        subst ho
        simp only [placedOrder, hid]
        omega
    | cancel =>
      simp only [step] at hc
      by_cases h : (run init ts).orderId - 1 < 1
      · rw [onCancelOrder_of_lt _ h] at hc
        exact ih c hc o ho
      · rw [onCancelOrder_of_ge _ (by omega)] at hc
        simp only [List.mem_append, List.mem_singleton] at hc
        rcases hc with hc | rfl
        · exact ih c hc o ho
        · simp only [Call.order?, Option.some.injEq] at ho
          subst ho
          simp only
          omega

/-! ## Cancel before any place (C5) -/

/-- C5: while the order counter has its initial value 1, the cancel handler
changes nothing at all: the state after it, and after any number of cancel
clicks in a row, is the state before, so the counter, the notifications and
the log of `OrderService` invocations are what they were (no `cancelOrder`
call, no notification). -/
theorem cancel_at_initial_counter (s : State) (m : Nat) (h : s.orderId = 1) :
    onCancelOrder s = s
    ∧ run s (List.replicate m Trigger.cancel) = s
    ∧ (run s (List.replicate m Trigger.cancel)).orderId = s.orderId
    ∧ (run s (List.replicate m Trigger.cancel)).page.notifications = s.page.notifications
    ∧ (run s (List.replicate m Trigger.cancel)).page.calls = s.page.calls := by
  have h1 : onCancelOrder s = s := onCancelOrder_of_lt s (by omega)
  have h2 : run s (List.replicate m Trigger.cancel) = s := by
    induction m with
    | zero => rfl
    | succ m ih =>
      rw [List.replicate_succ]
      show run (step s Trigger.cancel) (List.replicate m Trigger.cancel) = s
      simp only [step, h1, ih]
  exact ⟨h1, h2, by rw [h2], by rw [h2], by rw [h2]⟩

/-- Witness for C5: the state the script starts in, three cancel clicks. -/
theorem cancel_at_initial_counter_witness :
    init.orderId = 1
    ∧ run init (List.replicate 3 Trigger.cancel) = init
    ∧ (run init (List.replicate 3 Trigger.cancel)).page.notifications = [] :=
  ⟨rfl, (cancel_at_initial_counter init 3 rfl).2.1,
    (cancel_at_initial_counter init 3 rfl).2.2.2.1⟩

/-! ## Order ids (C6, C7) -/

/-- C6: after any sequence of place and cancel clicks from the initial
state, the ids of the orders the place clicks built are `1, 2, ..., n` in
that order (`n` the number of place clicks), so the `k`-th has id `k`, and the
ids are strictly increasing and pairwise distinct; the counter is `n + 1`;
a place click builds its order with the current counter as id and adds one to
the counter; a cancel click leaves the counter as it is. -/
theorem placed_ids_count_up (ts : List Trigger) :
    (placedOrders (run init ts).page.calls).map Order.id
      = (List.range (placeCount ts)).map (fun i : Nat => (i : Int) + 1)
    ∧ (∀ k : Nat, k < placeCount ts →
        ((placedOrders (run init ts).page.calls).map Order.id)[k]? = some ((k : Int) + 1))
    ∧ List.Pairwise (fun a b : Int => a < b)
        ((placedOrders (run init ts).page.calls).map Order.id)
    ∧ ((placedOrders (run init ts).page.calls).map Order.id).Nodup
    ∧ (run init ts).orderId = (placeCount ts : Int) + 1
    ∧ (∀ (itemsText deliveryType : String) (s : State),
        (placedOrder itemsText s).id = s.orderId
        ∧ placedOrders (onPlaceOrder itemsText deliveryType s).page.calls
            = placedOrders s.page.calls ++ [placedOrder itemsText s]
        ∧ (onPlaceOrder itemsText deliveryType s).orderId = s.orderId + 1)
    ∧ (∀ s : State, (onCancelOrder s).orderId = s.orderId
        ∧ placedOrders (onCancelOrder s).page.calls = placedOrders s.page.calls) := by
  have hids := run_placed_ids ts
  have hpw : List.Pairwise (fun a b : Int => a < b)
      ((List.range (placeCount ts)).map (fun i : Nat => (i : Int) + 1)) := by
    rw [List.pairwise_map]
    refine (List.pairwise_lt_range (placeCount ts)).imp ?_
    intro a b hab
    omega
  refine ⟨hids, ?_, ?_, ?_, run_orderId ts, ?_, ?_⟩
  · intro k hk
    rw [hids]
    simp [List.getElem?_map, List.getElem?_range hk]
  · rw [hids]; exact hpw
  · rw [hids]
    exact hpw.imp (fun h => ne_of_lt h)
  · intro itemsText deliveryType s
    exact ⟨rfl, onPlaceOrder_placedOrders itemsText deliveryType s, rfl⟩
  · intro s
    exact ⟨onCancelOrder_orderId s, onCancelOrder_placedOrders s⟩

/-- Witness for C6: place, cancel, place builds the ids 1 and 2. -/
theorem placed_ids_count_up_witness :
    ((placedOrders (run init
        [Trigger.place "Pizza, Coke" "express", Trigger.cancel,
          Trigger.place "" "free"]).page.calls).map Order.id)[1]? = some 2 :=
  (placed_ids_count_up
    [Trigger.place "Pizza, Coke" "express", Trigger.cancel,
      Trigger.place "" "free"]).2.1 1 (by decide)

/-- C7: in every state reached from the initial state by place and cancel
clicks the counter is at least 1, and every order that was handed to a
subscriber's `update`, to `OrderService.placeOrder` or to
`OrderService.cancelOrder` has `id ≥ 1`; the fee computation `getFee` is
handed the distance and no order. -/
theorem dispatched_ids_positive (ts : List Trigger) :
    1 ≤ (run init ts).orderId
    ∧ (∀ c ∈ (run init ts).page.calls, ∀ o : Order, c.order? = some o → 1 ≤ o.id)
    ∧ (∀ d : ℚ, (Call.getFee d).order? = none) := by
  refine ⟨?_, run_calls_ids ts, fun _ => rfl⟩
  rw [run_orderId]
  omega

/-- Witness for C7: the order of the cancel click after one place click. -/
theorem dispatched_ids_positive_witness :
    1 ≤ (Order.mk 1 []).id :=
  (dispatched_ids_positive [Trigger.place "" "", Trigger.cancel]).2.1
    (Call.cancelOrder { id := 1, items := [] })
    (by simp [run, step, onCancelOrder, onPlaceOrder, init, CancelOrderCommand.execute,
      OrderService.cancelOrder, displayNotification, Page.record])
    { id := 1, items := [] } rfl

/-! ## Cancel after a place (C8) -/

/-- C8: once `n ≥ 1` place clicks have happened (cancel clicks in between or
not), a cancel click appends exactly one notification, "Order #n canceled.",
where `n` is the id of the order placed last; it hands `cancelOrder` the
order `{ id: n, items: [] }` and leaves the counter, the agents and the fee
display as they were.  Two cancel clicks in a row append that notification
twice. -/
theorem cancel_after_place (ts : List Trigger) (h : 1 ≤ placeCount ts) :
    (onCancelOrder (run init ts)).page.notifications
      = (run init ts).page.notifications
        ++ ["Order #" ++ numText (placeCount ts) ++ " canceled."]
    ∧ ((placedOrders (run init ts).page.calls).map Order.id).getLast?
      = some (placeCount ts : Int)
    ∧ (onCancelOrder (run init ts)).page.calls
      = (run init ts).page.calls
        ++ [Call.cancelOrder { id := (placeCount ts : Int), items := [] }]
    ∧ (onCancelOrder (run init ts)).orderId = (run init ts).orderId
    ∧ (onCancelOrder (run init ts)).restaurant = (run init ts).restaurant
    ∧ (onCancelOrder (run init ts)).page.feeDisplay = (run init ts).page.feeDisplay
    ∧ (onCancelOrder (onCancelOrder (run init ts))).page.notifications
      = (run init ts).page.notifications
        ++ ["Order #" ++ numText (placeCount ts) ++ " canceled.",
            "Order #" ++ numText (placeCount ts) ++ " canceled."] := by
  have hid := run_orderId ts
  have hsub : (run init ts).orderId - 1 = (placeCount ts : Int) := by omega
  have hge : 1 ≤ (run init ts).orderId - 1 := by omega
  have h1 := onCancelOrder_of_ge (run init ts) hge
  have hge2 : 1 ≤ (onCancelOrder (run init ts)).orderId - 1 := by
    rw [onCancelOrder_orderId]; exact hge
  have h2 := onCancelOrder_of_ge (onCancelOrder (run init ts)) hge2
  rw [hsub] at h1
  rw [onCancelOrder_orderId, hsub] at h2
  refine ⟨by rw [h1], ?_, by rw [h1], by rw [h1], by rw [h1], by rw [h1], ?_⟩
  · rw [run_placed_ids]
    obtain ⟨n, hn⟩ : ∃ n, placeCount ts = n + 1 := ⟨placeCount ts - 1, by omega⟩
    rw [hn, List.range_succ]
    simp
  · rw [h2, h1]
    simp

/-- Witness for C8: one place click, then the cancel click. -/
theorem cancel_after_place_witness :
    1 ≤ placeCount [Trigger.place "Pizza" "standard"]
    ∧ (onCancelOrder (run init [Trigger.place "Pizza" "standard"])).page.notifications
      = (run init [Trigger.place "Pizza" "standard"]).page.notifications
        ++ ["Order #" ++ numText (placeCount [Trigger.place "Pizza" "standard"])
              ++ " canceled."] :=
  ⟨by decide, (cancel_after_place [Trigger.place "Pizza" "standard"] (by decide)).1⟩

/-! ## What a place click shows (C10) -/

/-- C10: in every state reached from the initial state, where "Agent A" and
"Agent B" are the attached agents, a place click whose order has id `k` and
item list `items` appends exactly three notifications, in this order:
"Agent A notified: New order #k - " then the items joined with ", ", the
same for "Agent B", and "Order #k placed."; `k` is the counter before the
click.  The first place click with the text "Pizza, Coke" is spelled out. -/
theorem place_emits_three (ts : List Trigger) (itemsText deliveryType : String) :
    (onPlaceOrder itemsText deliveryType (run init ts)).page.notifications
      = (run init ts).page.notifications
        ++ ["Agent A notified: New order #"
              ++ numText (placedOrder itemsText (run init ts)).id ++ " - "
              ++ String.intercalate ", " (placedOrder itemsText (run init ts)).items,
            "Agent B notified: New order #"
              ++ numText (placedOrder itemsText (run init ts)).id ++ " - "
              ++ String.intercalate ", " (placedOrder itemsText (run init ts)).items,
            "Order #" ++ numText (placedOrder itemsText (run init ts)).id ++ " placed."]
    ∧ (placedOrder itemsText (run init ts)).id = (run init ts).orderId
    ∧ (placedOrder itemsText (run init ts)).items = parseItems itemsText
    ∧ (onPlaceOrder "Pizza, Coke" deliveryType init).page.notifications
      = ["Agent A notified: New order #1 - Pizza, Coke",
         "Agent B notified: New order #1 - Pizza, Coke",
         "Order #1 placed."] := by
  refine ⟨?_, rfl, rfl, ?_⟩
  · rw [onPlaceOrder_notifications, run_restaurant]
    simp [init, Restaurant.attach, Restaurant.new, placedOrder]
  · rw [onPlaceOrder_notifications]
    decide

/-! ## Item parsing (C9) -/

theorem splitComma_ne_nil (cs : List Char) : splitComma cs ≠ [] := by
  cases cs with
  | nil => simp [splitComma]
  | cons c cs =>
    unfold splitComma
    split
    · simp
    · split <;> simp

theorem splitComma_cons_comma (cs : List Char) :
    splitComma (',' :: cs) = [] :: splitComma cs := by
  simp [splitComma]

theorem splitComma_cons_other (c : Char) (cs : List Char) (h : c ≠ ',') :
    ∃ seg rest, splitComma cs = seg :: rest ∧ splitComma (c :: cs) = (c :: seg) :: rest := by
  cases hs : splitComma cs with
  | nil => exact absurd hs (splitComma_ne_nil cs)
  | cons seg rest =>
    refine ⟨seg, rest, rfl, ?_⟩
    rw [splitComma]
    simp [h, hs]

theorem splitComma_length (cs : List Char) :
    (splitComma cs).length = cs.count ',' + 1 := by
  induction cs with
  | nil => simp [splitComma]
  | cons c cs ih =>
    by_cases h : c = ','
    · subst h
      rw [splitComma_cons_comma]
      simp [ih]
    · obtain ⟨seg, rest, h1, h2⟩ := splitComma_cons_other c cs h
      rw [h2, List.count_cons_of_ne (Ne.symm h), ← ih, h1]
      simp

theorem splitComma_no_comma (cs : List Char) :
    ∀ seg ∈ splitComma cs, ',' ∉ seg := by
  induction cs with
  | nil => simp [splitComma]
  | cons c cs ih =>
    by_cases h : c = ','
    · subst h
      rw [splitComma_cons_comma]
      intro seg hseg
      rcases List.mem_cons.1 hseg with rfl | hseg
      · simp
      · exact ih seg hseg
    · obtain ⟨seg0, rest, h1, h2⟩ := splitComma_cons_other c cs h
      rw [h2]
      rw [h1] at ih
      intro seg hseg
      rcases List.mem_cons.1 hseg with rfl | hseg
      · intro hmem
        rcases List.mem_cons.1 hmem with hc | hmem
        · exact h hc.symm
        · exact ih seg0 (List.mem_cons_self _ _) hmem
      · exact ih seg (List.mem_cons_of_mem _ hseg)

theorem splitComma_intercalate (cs : List Char) :
    List.intercalate [','] (splitComma cs) = cs := by
  induction cs with
  | nil => simp [splitComma, List.intercalate]
  | cons c cs ih =>
    by_cases h : c = ','
    · subst h
      rw [splitComma_cons_comma]
      cases hs : splitComma cs with
      | nil => exact absurd hs (splitComma_ne_nil cs)
      | cons seg rest =>
        rw [hs] at ih
        simp only [List.intercalate, List.intersperse, List.flatten] at ih ⊢
        simp [ih]
    · obtain ⟨seg, rest, h1, h2⟩ := splitComma_cons_other c cs h
      rw [h2]
      rw [h1] at ih
      cases rest with
      | nil =>
        simp only [List.intercalate, List.intersperse, List.flatten] at ih ⊢
        simpa using ih
      | cons r rest =>
        simp only [List.intercalate, List.intersperse, List.flatten] at ih ⊢
        simpa using ih

theorem dropWhile_head_not (p : Char → Bool) (l : List Char) (c : Char)
    (h : (l.dropWhile p).head? = some c) : p c = false := by
  induction l with
  | nil => simp at h
  | cons a l ih =>
    by_cases ha : p a = true
    · rw [List.dropWhile_cons_of_pos ha] at h
      exact ih h
    · rw [List.dropWhile_cons_of_neg ha] at h
      simp only [List.head?_cons, Option.some.injEq] at h
      subst h
      simpa using ha

theorem trimChars_decompose (seg : List Char) :
    seg = seg.takeWhile isTrimChar ++ trimChars seg
      ++ (((seg.dropWhile isTrimChar).reverse).takeWhile isTrimChar).reverse := by
  have h1 := List.takeWhile_append_dropWhile isTrimChar seg
  have h2 := List.takeWhile_append_dropWhile isTrimChar (seg.dropWhile isTrimChar).reverse
  have h3 := congrArg List.reverse h2
  rw [List.reverse_append, List.reverse_reverse] at h3
  unfold trimChars
  rw [List.append_assoc, h3, h1]

theorem trimChars_getLast (seg : List Char) (c : Char)
    (h : (trimChars seg).getLast? = some c) : isTrimChar c = false := by
  unfold trimChars at h
  rw [List.getLast?_reverse] at h
  exact dropWhile_head_not isTrimChar _ c h

theorem trimChars_head (seg : List Char) (c : Char)
    (h : (trimChars seg).head? = some c) : isTrimChar c = false := by
  have hd := trimChars_decompose seg
  have h1 := List.takeWhile_append_dropWhile isTrimChar seg
  rw [List.append_assoc] at hd
  have h2 : seg.dropWhile isTrimChar = trimChars seg
      ++ (((seg.dropWhile isTrimChar).reverse).takeWhile isTrimChar).reverse := by
    have h3 : seg.takeWhile isTrimChar ++ seg.dropWhile isTrimChar
        = seg.takeWhile isTrimChar ++ (trimChars seg
          ++ (((seg.dropWhile isTrimChar).reverse).takeWhile isTrimChar).reverse) := by
      rw [h1]; exact hd
    exact List.append_cancel_left h3
  apply dropWhile_head_not isTrimChar seg c
  rw [h2, List.head?_append, h]
  rfl

theorem trimChars_subset (seg : List Char) (c : Char) (h : c ∈ trimChars seg) : c ∈ seg := by
  rw [trimChars_decompose seg]
  simp [h]

/-- C9: for every text, the item list of the place handler is the list of
the comma-separated segments of the text, in order, each trimmed: joining
the segments with commas gives the text back and no segment has a comma;
each segment is its trimmed item with only whitespace before and after it;
the list has one entry more than the text has commas; no item has a comma or
begins or ends with whitespace; the empty text gives the one item "". -/
theorem parseItems_segments (text : String) :
    parseItems text = (splitComma text.data).map (fun seg => String.mk (trimChars seg))
    ∧ List.intercalate [','] (splitComma text.data) = text.data
    ∧ (∀ seg ∈ splitComma text.data, ',' ∉ seg)
    ∧ (∀ seg : List Char, ∃ pre post : List Char,
        seg = pre ++ trimChars seg ++ post
        ∧ (∀ c ∈ pre, isTrimChar c = true) ∧ (∀ c ∈ post, isTrimChar c = true))
    ∧ (parseItems text).length = text.data.count ',' + 1
    ∧ (∀ item ∈ parseItems text,
        ',' ∉ item.data
        ∧ (∀ c : Char, item.data.head? = some c → isTrimChar c = false)
        ∧ (∀ c : Char, item.data.getLast? = some c → isTrimChar c = false))
    ∧ parseItems "" = [""]
    ∧ parseItems " Pizza ,Coke\t,, " = ["Pizza", "Coke", "", ""] := by
  refine ⟨rfl, splitComma_intercalate _, splitComma_no_comma _, ?_, ?_, ?_, by decide,
    by decide⟩
  · intro seg
    refine ⟨_, _, trimChars_decompose seg, ?_, ?_⟩
    · intro c hc
      exact (List.mem_takeWhile_imp hc)
    · intro c hc
      rw [List.mem_reverse] at hc
      exact (List.mem_takeWhile_imp hc)
  · simp [parseItems, splitComma_length]
  · intro item hitem
    simp only [parseItems, List.mem_map] at hitem
    obtain ⟨seg, hseg, rfl⟩ := hitem
    refine ⟨?_, ?_, ?_⟩
    · intro hmem
      exact splitComma_no_comma _ seg hseg (trimChars_subset seg _ hmem)
    · intro c hc
      exact trimChars_head seg c hc
    · intro c hc
      exact trimChars_getLast seg c hc

/-- Witness for C9: an item of the text "a , b". -/
theorem parseItems_segments_witness :
    "a" ∈ parseItems "a , b" ∧ ',' ∉ "a".data :=
  ⟨by decide, ((parseItems_segments "a , b").2.2.2.2.2.1 "a" (by decide)).1⟩

end App
